import Mathlib

/-!
Shallow embedding of `active_subspaces/utils/misc.py` (JIMMY-KSU/active_subspaces).

Numeric arrays are embedded over `ℚ` (exact arithmetic standing in for IEEE
doubles).  Shape-sensitive functions (`process_inputs`,
`process_inputs_outputs`, `atleast_2d`) act on an `NDArray` carrying an
explicit shape list; the numeric cores of the normalizers act on
`Matrix (Fin M) (Fin m) ℚ`, where shape validation always succeeds.
Python exceptions are embedded as an `Except PyErr` result; `numpy`'s NaN
(mean/variance of an empty selection) is embedded as `Option.none`.
-/

/-- Python exceptions raised by `misc.py`, by class and message.  The source
raises `ValueError` for rank violations, bare `Exception` for the row-count
and scalar-output checks and for an invalid `oned_as` mode (the Python-2
two-argument raise on line 327), and numpy raises `IndexError`/`ValueError`
internally. -/
inductive PyErr where
  | valueError (msg : String)
  | exception (msg : String)
  | indexError (msg : String)
deriving DecidableEq, Repr

/-- A numpy ndarray: an explicit shape together with flat (row-major) data. -/
structure NDArray where
  shape : List ℕ
  data : List ℚ
deriving DecidableEq, Repr

/-- Embedding of `process_inputs` (misc.py lines 185-209): requires `X.shape`
to have exactly two entries `(M, m)`, else raises
`ValueError('The inputs X should be a two-d numpy array.')`; returns `X`
(its reshape to `(M, m)` is the identity here) together with `M` and `m`. -/
def process_inputs (X : NDArray) : Except PyErr (NDArray × ℕ × ℕ) :=
  match X.shape with
  | [M, m] => .ok (X, M, m)
  | _ => .error (.valueError "The inputs X should be a two-d numpy array.")

/-- Embedding of `process_inputs_outputs` (misc.py lines 211-248): validates
`X` via `process_inputs`, then requires `f` two-dimensional
(`ValueError('The outputs f should be a two-d numpy array.')`), then
`Mf = M` (`Exception('Different number of inputs and outputs.')`), then
`mf = 1` (`Exception('Only scalar-valued functions.')`), in that order;
finally reshapes `f` to `(M, 1)`. -/
def process_inputs_outputs (X f : NDArray) :
    Except PyErr (NDArray × NDArray × ℕ × ℕ) :=
  match process_inputs X with
  | .error e => .error e
  | .ok (X, M, m) =>
    match f.shape with
    | [Mf, mf] =>
      if Mf ≠ M then
        .error (.exception "Different number of inputs and outputs.")
      else if mf ≠ 1 then
        .error (.exception "Only scalar-valued functions.")
      else
        .ok (X, ⟨[M, 1], f.data⟩, M, m)
    | _ => .error (.valueError "The outputs f should be a two-d numpy array.")

/-- Embedding of `A[None,:]` on an array of rank `< 2` handled by
`atleast_2d`: prepends a new leading axis; on a 0-d array numpy raises
`IndexError` (too many indices). -/
def expandRow (A : NDArray) : Except PyErr NDArray :=
  match A.shape with
  | [] => .error (.indexError "too many indices for array")
  | s => .ok ⟨1 :: s, A.data⟩

/-- Embedding of `A[:,None]`: inserts a new second axis; on a 0-d array
numpy raises `IndexError`. -/
def expandCol (A : NDArray) : Except PyErr NDArray :=
  match A.shape with
  | [] => .error (.indexError "too many indices for array")
  | s0 :: rest => .ok ⟨s0 :: 1 :: rest, A.data⟩

/-- Embedding of `atleast_2d` (misc.py lines 300-329) on array input: when
`np.ndim(A) < 2` it expands along a row or column axis according to
`oned_as`, and for any other mode string executes the Python-2 form
`raise Exception , "oned_as must be 'row' or 'col' "`, which raises a bare
`Exception` (not a `ValueError`); arrays of rank `≥ 2` are returned as-is
without inspecting `oned_as`. -/
def atleast_2d (A : NDArray) (oned_as : String) : Except PyErr NDArray :=
  if A.shape.length < 2 then
    if oned_as = "row" then expandRow A
    else if oned_as = "col" then expandCol A
    else .error (.exception "oned_as must be \x27row\x27 or \x27col\x27 ")
  else .ok A

/-- Embedding of `atleast_2d_row` (misc.py lines 294-298). -/
def atleast_2d_row (A : NDArray) : Except PyErr NDArray :=
  atleast_2d A "row"

/-- Embedding of `atleast_2d_col` (misc.py lines 288-292). -/
def atleast_2d_col (A : NDArray) : Except PyErr NDArray :=
  atleast_2d A "col"

/-- State of a `BoundedNormalizer` (misc.py lines 15-50): lower and upper
bound row vectors of length `m` (the constructor reshapes the caller's
length-`m` arrays to `1 × m`). -/
structure BoundedNormalizer (m : ℕ) where
  lb : Fin m → ℚ
  ub : Fin m → ℚ

/-- Embedding of `BoundedNormalizer.normalize` (misc.py line 70):
`2.0 * (X - lb) / (ub - lb) - 1.0` elementwise, `lb`/`ub` broadcast across
the rows of the validated `M × m` input. -/
def BoundedNormalizer.normalize {m M : ℕ} (N : BoundedNormalizer m)
    (X : Matrix (Fin M) (Fin m) ℚ) : Matrix (Fin M) (Fin m) ℚ :=
  Matrix.of fun i j => 2 * (X i j - N.lb j) / (N.ub j - N.lb j) - 1

/-- Embedding of `BoundedNormalizer.unnormalize` (misc.py line 92):
`(ub - lb) * (X + 1.0) / 2.0 + lb` elementwise. -/
def BoundedNormalizer.unnormalize {m M : ℕ} (N : BoundedNormalizer m)
    (X : Matrix (Fin M) (Fin m) ℚ) : Matrix (Fin M) (Fin m) ℚ :=
  Matrix.of fun i j => (N.ub j - N.lb j) * (X i j + 1) / 2 + N.lb j

/-- Computable matrix inverse over `ℚ`: `det⁻¹ • adjugate`, which agrees
with Mathlib's noncomputable `A⁻¹`. -/
def matInv {m : ℕ} (A : Matrix (Fin m) (Fin m) ℚ) : Matrix (Fin m) (Fin m) ℚ :=
  (A.det)⁻¹ • A.adjugate

/-- Embedding of `np.linalg.solve(A, B)` under exact arithmetic: the
solution `A⁻¹ * B` of `A·Z = B` (numpy computes it by a general LU-based
solver; for nonsingular `A` the exact result is `A⁻¹ * B`). -/
def linalgSolve {m k : ℕ} (A : Matrix (Fin m) (Fin m) ℚ)
    (B : Matrix (Fin m) (Fin k) ℚ) : Matrix (Fin m) (Fin k) ℚ :=
  matInv A * B

/-- Broadcast of a length-`m` row vector across `M` rows, as numpy does
for `X - self.mu` and `X0 + self.mu`. -/
def broadcastRow {m : ℕ} (M : ℕ) (v : Fin m → ℚ) : Matrix (Fin M) (Fin m) ℚ :=
  Matrix.of fun _ j => v j

/-- State of an `UnboundedNormalizer` (misc.py lines 95-135): mean row
vector `mu` and the stored Cholesky factor `L = np.linalg.cholesky(C)`.
`np.linalg.cholesky` returns the lower-triangular factor with strictly
positive diagonal of a symmetric positive-definite `C`; theorems about the
normalizer take those two properties of `L` as hypotheses. -/
structure UnboundedNormalizer (m : ℕ) where
  mu : Fin m → ℚ
  L : Matrix (Fin m) (Fin m) ℚ

/-- Embedding of `UnboundedNormalizer.normalize` (misc.py lines 156-159):
`X0 = X - mu`; `X_norm = np.linalg.solve(L, X0.T).T`. -/
def UnboundedNormalizer.normalize {m M : ℕ} (N : UnboundedNormalizer m)
    (X : Matrix (Fin M) (Fin m) ℚ) : Matrix (Fin M) (Fin m) ℚ :=
  (linalgSolve N.L (X - broadcastRow M N.mu).transpose).transpose

/-- Embedding of `UnboundedNormalizer.unnormalize` (misc.py lines 180-183):
`X0 = np.dot(X, L.T)`; `X_unnorm = X0 + mu`. -/
def UnboundedNormalizer.unnormalize {m M : ℕ} (N : UnboundedNormalizer m)
    (X : Matrix (Fin M) (Fin m) ℚ) : Matrix (Fin M) (Fin m) ℚ :=
  X * N.L.transpose + broadcastRow M N.mu

/-- Forward substitution for a lower-triangular system `L·z = b`, indexed
over `ℕ`: `z i = (b i - ∑ j < i, L i j * z j) / L i i`.  This is the
reference algorithm the specification prescribes for the triangular solve. -/
def fsub (L : ℕ → ℕ → ℚ) (b : ℕ → ℚ) : ℕ → ℚ
  | i => (b i - ∑ j : Fin i, L i j * fsub L b j) / L i i

/-- Extension of an `m × m` matrix to a totally defined `ℕ`-indexed
function (0 outside the index range), for feeding `fsub`. -/
def extMat {m : ℕ} (L : Matrix (Fin m) (Fin m) ℚ) : ℕ → ℕ → ℚ :=
  fun a c => if ha : a < m then if hc : c < m then L ⟨a, ha⟩ ⟨c, hc⟩ else 0 else 0

/-- Extension of a length-`m` vector to a totally defined `ℕ`-indexed
function (0 outside the index range). -/
def extVec {m : ℕ} (b : Fin m → ℚ) : ℕ → ℚ :=
  fun a => if ha : a < m then b ⟨a, ha⟩ else 0

/-- Forward substitution packaged for an `m × m` matrix and length-`m`
right-hand side. -/
def forwardSubVec {m : ℕ} (L : Matrix (Fin m) (Fin m) ℚ) (b : Fin m → ℚ) :
    Fin m → ℚ :=
  fun i => fsub (extMat L) (extVec b) i

/-- Columnwise forward substitution for a matrix right-hand side
`L·Z = B`. -/
def forwardSubMat {m k : ℕ} (L : Matrix (Fin m) (Fin m) ℚ)
    (B : Matrix (Fin m) (Fin k) ℚ) : Matrix (Fin m) (Fin k) ℚ :=
  Matrix.of fun i j => forwardSubVec L (fun r => B r j) i

/-- Embedding of `np.mean` over a selected sub-collection: arithmetic mean,
`none` standing for the NaN numpy produces on an empty selection. -/
def npMean (l : List ℚ) : Option ℚ :=
  if l.length = 0 then none else some (l.sum / l.length)

/-- Embedding of `np.var` (population variance, divide by count): mean of
squared deviations from the mean, `none` standing for NaN on an empty
selection. -/
def npVar (l : List ℚ) : Option ℚ :=
  if l.length = 0 then none
  else some (((l.map (fun x => (x - l.sum / l.length) ^ 2)).sum) / l.length)

/-- Boolean-mask selection `f[ind == i]`: the `f` entries whose label
equals `i`, in order. -/
def selectGroup (f : List ℚ) (ind : List ℕ) (i : ℕ) : List ℚ :=
  ((f.zip ind).filter (fun p => p.2 = i)).map Prod.fst

/-- Embedding of `np.amax` on a 1-D integer array: the running maximum of
the entries (numpy raises `ValueError` on an empty array; `npAmax` is only
invoked on nonempty lists). -/
def npAmax (l : List ℕ) : ℕ :=
  match l with
  | [] => 0
  | a :: t => t.foldl max a

/-- A record emitted to the process-wide Python `logging` facility. -/
structure LogRecord where
  channel : String
  level : String
  message : String
deriving DecidableEq, Repr

/-- Embedding of `conditional_expectations` (misc.py lines 250-285),
returning both the emitted log records and the result.  `n = np.amax(ind) + 1`
(`np.amax` raises `ValueError` on an empty array), `NMC = np.sum(ind == 0)`;
one info record goes to the logger named `PAUL`; `Ef[i]`/`Vf[i]` are the
numpy mean and variance of `f[ind == i]`. -/
def conditional_expectations_run (f : List ℚ) (ind : List ℕ) :
    Except PyErr (List LogRecord × List (Option ℚ) × List (Option ℚ)) :=
  match ind with
  | [] => .error (.valueError
      "zero-size array to reduction operation maximum which has no identity")
  | i0 :: rest =>
    let n : ℕ := npAmax (i0 :: rest) + 1
    let NMC : ℕ := ((i0 :: rest).filter (fun v => v = 0)).length
    let msg := "Computing " ++ toString n ++ " conditional averages with " ++
      toString NMC ++ " MC samples."
    .ok ([⟨"PAUL", "INFO", msg⟩],
      (List.range n).map (fun i => npMean (selectGroup f ind i)),
      (List.range n).map (fun i => npVar (selectGroup f ind i)))

/-- The value returned by `conditional_expectations`: the pair `(Ef, Vf)`,
log records discarded. -/
def conditional_expectations (f : List ℚ) (ind : List ℕ) :
    Except PyErr (List (Option ℚ) × List (Option ℚ)) :=
  (conditional_expectations_run f ind).map Prod.snd

/-- C1: for every `BoundedNormalizer` built from length-`m` vectors `lb`, `ub`
satisfying the data-model invariant `lb < ub` coordinatewise, and every
`M × m` matrix `X`, `normalize(X)` is elementwise
`2*(X - lb)/(ub - lb) - 1` with `lb`/`ub` broadcast across rows; the
broadcast row `lb` maps exactly to the all `-1` matrix and the row `ub` to
the all `+1` matrix, in every coordinate. -/
theorem C1_boundedNormalizer_normalize_formula {m M : ℕ} (N : BoundedNormalizer m)
    (h : ∀ j, N.lb j < N.ub j) (X : Matrix (Fin M) (Fin m) ℚ) :
    (∀ i j, N.normalize X i j = 2 * (X i j - N.lb j) / (N.ub j - N.lb j) - 1) ∧
    (∀ (i : Fin M) (j : Fin m), N.normalize (broadcastRow M N.lb) i j = -1) ∧
    (∀ (i : Fin M) (j : Fin m), N.normalize (broadcastRow M N.ub) i j = 1) := by
  refine ⟨fun i j => rfl, fun i j => ?_, fun i j => ?_⟩
  · simp [BoundedNormalizer.normalize, broadcastRow]
  · have hne : N.ub j - N.lb j ≠ 0 := sub_ne_zero.mpr (ne_of_gt (h j))
    show 2 * (N.ub j - N.lb j) / (N.ub j - N.lb j) - 1 = 1
    rw [mul_div_assoc, div_self hne]
    norm_num

/-- Witness for C1 at `m = M = 1`, `lb = 0`, `ub = 2`, `X = (1)`. -/
theorem C1_boundedNormalizer_normalize_formula_witness :
    (∀ j : Fin 1, (⟨fun _ => 0, fun _ => 2⟩ : BoundedNormalizer 1).lb j <
      (⟨fun _ => 0, fun _ => 2⟩ : BoundedNormalizer 1).ub j) ∧
    ((∀ i j, (⟨fun _ => 0, fun _ => 2⟩ : BoundedNormalizer 1).normalize
        (Matrix.of fun (_ : Fin 1) (_ : Fin 1) => (1 : ℚ)) i j =
        2 * ((Matrix.of fun (_ : Fin 1) (_ : Fin 1) => (1 : ℚ)) i j - 0) / (2 - 0) - 1) ∧
     (∀ (i : Fin 1) (j : Fin 1),
        (⟨fun _ => 0, fun _ => 2⟩ : BoundedNormalizer 1).normalize
          (broadcastRow 1 (⟨fun _ => 0, fun _ => 2⟩ : BoundedNormalizer 1).lb) i j = -1) ∧
     (∀ (i : Fin 1) (j : Fin 1),
        (⟨fun _ => 0, fun _ => 2⟩ : BoundedNormalizer 1).normalize
          (broadcastRow 1 (⟨fun _ => 0, fun _ => 2⟩ : BoundedNormalizer 1).ub) i j = 1)) :=
  ⟨by decide, C1_boundedNormalizer_normalize_formula _ (by decide) _⟩

/-- C2: for every `BoundedNormalizer` with `lb[j] < ub[j]` in every
coordinate and every `M × m` matrix `X` (not only `X` within `[-1,1]`),
`unnormalize(normalize(X)) = X` and `normalize(unnormalize(X)) = X`
exactly, in exact arithmetic. -/
theorem C2_boundedNormalizer_roundtrip {m M : ℕ} (N : BoundedNormalizer m)
    (h : ∀ j, N.lb j < N.ub j) (X : Matrix (Fin M) (Fin m) ℚ) :
    N.unnormalize (N.normalize X) = X ∧ N.normalize (N.unnormalize X) = X := by
  constructor <;> ext i j <;>
  · have hne : N.ub j - N.lb j ≠ 0 := sub_ne_zero.mpr (ne_of_gt (h j))
    simp only [BoundedNormalizer.normalize, BoundedNormalizer.unnormalize, Matrix.of_apply]
    field_simp
    try ring

/-- Witness for C2 at `m = M = 1`, `lb = -1`, `ub = 3`, `X = (7)` (a point
far outside `[-1,1]`). -/
theorem C2_boundedNormalizer_roundtrip_witness :
    (∀ j : Fin 1, (⟨fun _ => -1, fun _ => 3⟩ : BoundedNormalizer 1).lb j <
      (⟨fun _ => -1, fun _ => 3⟩ : BoundedNormalizer 1).ub j) ∧
    ((⟨fun _ => -1, fun _ => 3⟩ : BoundedNormalizer 1).unnormalize
       ((⟨fun _ => -1, fun _ => 3⟩ : BoundedNormalizer 1).normalize
         (Matrix.of fun (_ : Fin 1) (_ : Fin 1) => (7 : ℚ))) =
       (Matrix.of fun (_ : Fin 1) (_ : Fin 1) => (7 : ℚ)) ∧
     (⟨fun _ => -1, fun _ => 3⟩ : BoundedNormalizer 1).normalize
       ((⟨fun _ => -1, fun _ => 3⟩ : BoundedNormalizer 1).unnormalize
         (Matrix.of fun (_ : Fin 1) (_ : Fin 1) => (7 : ℚ))) =
       (Matrix.of fun (_ : Fin 1) (_ : Fin 1) => (7 : ℚ))) :=
  ⟨by decide, C2_boundedNormalizer_roundtrip _ (by decide) _⟩

/-- C6: `process_inputs` fails (with the rank `ValueError`, the spec's
ShapeError) exactly when `X` is not two-dimensional; on a shape-`(M, m)`
array it returns `X` unchanged together with its actual row and column
counts. -/
theorem C6_process_inputs_spec (X : NDArray) :
    (X.shape.length ≠ 2 → process_inputs X =
      .error (.valueError "The inputs X should be a two-d numpy array.")) ∧
    (∀ Mv mv, X.shape = [Mv, mv] → process_inputs X = .ok (X, Mv, mv)) := by
  constructor
  · intro h
    unfold process_inputs
    rcases hs : X.shape with _ | ⟨a, _ | ⟨b, _ | ⟨c, t⟩⟩⟩
    · rfl
    · rfl
    · exact absurd (by rw [hs]; rfl) h
    · rfl
  · intro Mv mv h
    unfold process_inputs
    rw [h]

/-- Witness for C6: a `2 × 3` array validates with `M = 2`, `m = 3`; a 1-D
array of length 4 raises the ShapeError. -/
theorem C6_process_inputs_spec_witness :
    process_inputs ⟨[2, 3], []⟩ = .ok (⟨[2, 3], []⟩, 2, 3) ∧
    process_inputs ⟨[4], []⟩ =
      .error (.valueError "The inputs X should be a two-d numpy array.") :=
  ⟨(C6_process_inputs_spec _).2 2 3 rfl, (C6_process_inputs_spec _).1 (by decide)⟩

/-- C7: after validating `X` (rank `ValueError` when `X` is not 2-D),
`process_inputs_outputs` raises the outputs ShapeError when `f` is not
2-D, then the CountMismatchError (`Exception('Different number of inputs
and outputs.')`) when `f` has a row count other than `M`, then the
NonScalarOutputError (`Exception('Only scalar-valued functions.')`) when
`f` has more than one column, in that order; otherwise it returns `X`,
`f` reshaped to `(M, 1)`, `M` and `m`.  The four cases listed are
exhaustive, so no other input is accepted or rejected. -/
theorem C7_process_inputs_outputs_spec (X f : NDArray) :
    (X.shape.length ≠ 2 → process_inputs_outputs X f =
      .error (.valueError "The inputs X should be a two-d numpy array.")) ∧
    (∀ Mv mv, X.shape = [Mv, mv] →
      (f.shape.length ≠ 2 → process_inputs_outputs X f =
        .error (.valueError "The outputs f should be a two-d numpy array.")) ∧
      (∀ Mf mf, f.shape = [Mf, mf] → Mf ≠ Mv → process_inputs_outputs X f =
        .error (.exception "Different number of inputs and outputs.")) ∧
      (∀ mf, f.shape = [Mv, mf] → mf ≠ 1 → process_inputs_outputs X f =
        .error (.exception "Only scalar-valued functions.")) ∧
      (f.shape = [Mv, 1] → process_inputs_outputs X f =
        .ok (X, ⟨[Mv, 1], f.data⟩, Mv, mv))) := by
  constructor
  · intro h
    have hX := (C6_process_inputs_spec X).1 h
    unfold process_inputs_outputs
    rw [hX]
  · intro Mv mv h
    have hX := (C6_process_inputs_spec X).2 Mv mv h
    refine ⟨?_, ?_, ?_, ?_⟩
    · intro hf
      unfold process_inputs_outputs
      rw [hX]
      rcases hs : f.shape with _ | ⟨a, _ | ⟨b, _ | ⟨c, t⟩⟩⟩
      · rfl
      · rfl
      · exact absurd (by rw [hs]; rfl) hf
      · rfl
    · intro Mf mf hs hMf
      unfold process_inputs_outputs
      rw [hX, hs]
      exact if_pos hMf
    · intro mf hs hmf
      unfold process_inputs_outputs
      rw [hX, hs]
      exact (if_neg (by simp)).trans (if_pos hmf)
    · intro hs
      unfold process_inputs_outputs
      rw [hX, hs]
      exact (if_neg (by simp)).trans (if_neg (by simp))

/-- Witness for C7: a `2 × 3` input paired with a `2 × 1` output is
accepted; `2 × 2`, `3 × 1` and 1-D outputs raise the NonScalarOutputError,
CountMismatchError and ShapeError respectively. -/
theorem C7_process_inputs_outputs_spec_witness :
    process_inputs_outputs ⟨[2, 3], []⟩ ⟨[2, 1], [1, 2]⟩ =
      .ok (⟨[2, 3], []⟩, ⟨[2, 1], [1, 2]⟩, 2, 3) ∧
    process_inputs_outputs ⟨[2, 3], []⟩ ⟨[2, 2], []⟩ =
      .error (.exception "Only scalar-valued functions.") ∧
    process_inputs_outputs ⟨[2, 3], []⟩ ⟨[3, 1], []⟩ =
      .error (.exception "Different number of inputs and outputs.") ∧
    process_inputs_outputs ⟨[2, 3], []⟩ ⟨[2], []⟩ =
      .error (.valueError "The outputs f should be a two-d numpy array.") :=
  ⟨((C7_process_inputs_outputs_spec _ _).2 2 3 rfl).2.2.2 rfl,
   ((C7_process_inputs_outputs_spec _ _).2 2 3 rfl).2.2.1 2 rfl (by decide),
   ((C7_process_inputs_outputs_spec _ _).2 2 3 rfl).2.1 3 1 rfl (by decide),
   ((C7_process_inputs_outputs_spec _ _).2 2 3 rfl).1 (by decide)⟩

/-- C8: the claim expects a `ValueError` on an unrecognized mode, but the
source's Python-2 form `raise Exception , "oned_as must be 'row' or 'col' "`
raises a bare `Exception` (and is a `SyntaxError` under Python 3): at the
failing input — the length-1 array `[5]` with mode `"diag"` — the embedded
code raises the bare `Exception` with that message, and no `ValueError`
with any message. -/
theorem C8_atleast_2d_invalid_mode_bare_exception :
    atleast_2d ⟨[1], [5]⟩ "diag" =
      .error (.exception "oned_as must be \x27row\x27 or \x27col\x27 ") ∧
    ∀ msg, atleast_2d ⟨[1], [5]⟩ "diag" ≠ .error (.valueError msg) := by
  have h1 : atleast_2d ⟨[1], [5]⟩ "diag" =
      .error (.exception "oned_as must be \x27row\x27 or \x27col\x27 ") := by rfl
  refine ⟨h1, fun msg h => ?_⟩
  rw [h1] at h
  simp at h

/-- C10: `atleast_2d` returns any array of rank at least 2 unchanged for
every mode string, recognized or not; its error branch is reachable only
for inputs of rank below 2. -/
theorem C10_atleast_2d_rank_ge_two_identity (A : NDArray) (mode : String) :
    (2 ≤ A.shape.length → atleast_2d A mode = .ok A) ∧
    (∀ e, atleast_2d A mode = .error e → A.shape.length < 2) := by
  constructor
  · intro h
    unfold atleast_2d
    rw [if_neg (by omega)]
  · intro e h
    by_contra hc
    unfold atleast_2d at h
    rw [if_neg hc] at h
    simp at h

/-- Witness for C10: a `2 × 2` array with the unrecognized mode `"diag"`
is returned unchanged. -/
theorem C10_atleast_2d_rank_ge_two_identity_witness :
    atleast_2d ⟨[2, 2], [1, 2, 3, 4]⟩ "diag" = .ok ⟨[2, 2], [1, 2, 3, 4]⟩ :=
  (C10_atleast_2d_rank_ge_two_identity _ _).1 (by decide)

/-- Helper: a left fold of `max` is at least its seed and every element. -/
theorem le_foldl_max (l : List ℕ) (a : ℕ) :
    a ≤ l.foldl max a ∧ ∀ x ∈ l, x ≤ l.foldl max a := by
  induction l generalizing a with
  | nil => simp
  | cons b t ih =>
    refine ⟨le_trans (le_max_left a b) (ih (max a b)).1, ?_⟩
    intro x hx
    rcases List.mem_cons.mp hx with rfl | hx
    · exact le_trans (le_max_right a x) (ih (max a x)).1
    · exact (ih (max a b)).2 x hx

/-- Helper: a left fold of `max` is the seed or one of the elements. -/
theorem foldl_max_mem (l : List ℕ) (a : ℕ) :
    l.foldl max a = a ∨ l.foldl max a ∈ l := by
  induction l generalizing a with
  | nil => exact Or.inl rfl
  | cons b t ih =>
    rcases ih (max a b) with h | h
    · have hfold : (b :: t).foldl max a = max a b := h
      rcases Nat.le_total a b with h1 | h1
      · refine Or.inr ?_
        rw [hfold, max_eq_right h1]
        exact List.mem_cons_self b t
      · refine Or.inl ?_
        rw [hfold, max_eq_left h1]
    · exact Or.inr (List.mem_cons_of_mem _ h)

/-- Helper: on a nonempty list, `npAmax` is an element of the list. -/
theorem npAmax_mem (l : List ℕ) (h : l ≠ []) : npAmax l ∈ l := by
  rcases l with _ | ⟨a, t⟩
  · exact absurd rfl h
  · show t.foldl max a ∈ a :: t
    rcases foldl_max_mem t a with h1 | h1
    · rw [h1]
      exact List.mem_cons_self a t
    · exact List.mem_cons_of_mem _ h1

/-- Helper: `npAmax` bounds every element of the list. -/
theorem le_npAmax (l : List ℕ) (x : ℕ) (hx : x ∈ l) : x ≤ npAmax l := by
  rcases l with _ | ⟨a, t⟩
  · exact absurd hx (List.not_mem_nil x)
  · rcases List.mem_cons.mp hx with rfl | hx
    · exact (le_foldl_max t x).1
    · exact (le_foldl_max t a).2 x hx

/-- C5: for every column `f` and every nonempty label array `ind`,
`conditional_expectations` raises nothing and returns columns `Ef`, `Vf`
of length `n = max(ind) + 1` (`npAmax` is shown to be the maximum of
`ind`); for every group `i < n` with at least one member, `Ef[i]` is the
arithmetic mean and `Vf[i]` the population variance (divide by the count)
of the `f` values labeled `i`, and for every empty group both entries are
NaN (`none`) — no exception is raised. -/
theorem C5_conditional_expectations_spec (f : List ℚ) (ind : List ℕ)
    (hne : ind ≠ []) :
    ∃ Ef Vf, conditional_expectations f ind = .ok (Ef, Vf) ∧
      (npAmax ind ∈ ind ∧ ∀ x ∈ ind, x ≤ npAmax ind) ∧
      Ef.length = npAmax ind + 1 ∧ Vf.length = npAmax ind + 1 ∧
      (∀ i, i < npAmax ind + 1 →
        (selectGroup f ind i ≠ [] →
          Ef[i]? = some (some ((selectGroup f ind i).sum /
            ((selectGroup f ind i).length : ℚ))) ∧
          Vf[i]? = some (some (((selectGroup f ind i).map
              (fun x : ℚ => (x - (selectGroup f ind i).sum /
                ((selectGroup f ind i).length : ℚ)) ^ 2)).sum /
            ((selectGroup f ind i).length : ℚ)))) ∧
        (selectGroup f ind i = [] →
          Ef[i]? = some none ∧ Vf[i]? = some none)) := by
  rcases hind : ind with _ | ⟨i0, rest⟩
  · exact absurd hind hne
  refine ⟨_, _, rfl, ⟨npAmax_mem _ (by simp), fun x hx => le_npAmax _ x hx⟩,
    by simp, by simp, ?_⟩
  intro i hi
  constructor
  · intro hgrp
    have hlen : (selectGroup f (i0 :: rest) i).length ≠ 0 := by
      simpa [List.length_eq_zero] using hgrp
    constructor
    · rw [List.getElem?_map, List.getElem?_range hi, Option.map_some']
      unfold npMean
      rw [if_neg hlen]
    · rw [List.getElem?_map, List.getElem?_range hi, Option.map_some']
      unfold npVar
      rw [if_neg hlen]
  · intro hgrp
    constructor
    · rw [List.getElem?_map, List.getElem?_range hi, Option.map_some']
      unfold npMean
      rw [if_pos (by simp [hgrp])]
    · rw [List.getElem?_map, List.getElem?_range hi, Option.map_some']
      unfold npVar
      rw [if_pos (by simp [hgrp])]

/-- Witness for C5 at the concrete case of the claim: `f = [1,2,3,4]`,
`ind = [0,0,1,1]` gives `Ef = [3/2, 7/2]` and `Vf = [1/4, 1/4]`. -/
theorem C5_conditional_expectations_spec_witness :
    (∃ Ef Vf, conditional_expectations [1, 2, 3, 4] [0, 0, 1, 1] =
      .ok (Ef, Vf)) ∧
    conditional_expectations [1, 2, 3, 4] [0, 0, 1, 1] =
      .ok ([some (3 / 2), some (7 / 2)], [some (1 / 4), some (1 / 4)]) := by
  obtain ⟨Ef, Vf, h, -⟩ :=
    C5_conditional_expectations_spec [1, 2, 3, 4] [0, 0, 1, 1] (by decide)
  refine ⟨⟨Ef, Vf, h⟩, ?_⟩
  simp [conditional_expectations, conditional_expectations_run,
    (by decide : npAmax [0, 0, 1, 1] = 1), npMean, npVar, selectGroup,
    List.range_succ]
  norm_num [Except.map]

/-- C9: every completed call of `conditional_expectations` emits exactly
one record, at level info, to the fixed process-wide logging channel named
`PAUL`, with content `Computing <n> conditional averages with <NMC> MC
samples.` where `n = max(ind) + 1` and `NMC` is the number of entries of
`ind` equal to 0. -/
theorem C9_conditional_expectations_log (f : List ℚ) (ind : List ℕ)
    (hne : ind ≠ []) :
    ∃ logs res, conditional_expectations_run f ind = .ok (logs, res) ∧
      logs = [⟨"PAUL", "INFO",
        "Computing " ++ toString (npAmax ind + 1) ++
          " conditional averages with " ++
          toString ((ind.filter (fun v => v = 0)).length) ++
          " MC samples."⟩] := by
  rcases ind with _ | ⟨i0, rest⟩
  · exact absurd rfl hne
  exact ⟨_, _, rfl, rfl⟩

/-- Witness for C9 at `f = [5]`, `ind = [0]`: the single record on channel
`PAUL` reads `Computing 1 conditional averages with 1 MC samples.`. -/
theorem C9_conditional_expectations_log_witness :
    ∃ logs res, conditional_expectations_run [5] [0] = .ok (logs, res) ∧
      logs = [⟨"PAUL", "INFO",
        "Computing " ++ toString (npAmax [0] + 1) ++
          " conditional averages with " ++
          toString (([0].filter (fun v => v = 0)).length) ++
          " MC samples."⟩] :=
  C9_conditional_expectations_log [5] [0] (by decide)

/-- Helper: the computable inverse `matInv` agrees with Mathlib's matrix
inverse over the field `ℚ`. -/
theorem matInv_eq {m : ℕ} (A : Matrix (Fin m) (Fin m) ℚ) : matInv A = A⁻¹ := by
  unfold matInv
  rw [Matrix.inv_def, Ring.inverse_eq_inv]

/-- Helper: a lower-triangular matrix with nonzero diagonal has a unit
determinant. -/
theorem lowerTri_isUnit_det {m : ℕ} (L : Matrix (Fin m) (Fin m) ℚ)
    (hlow : ∀ i j : Fin m, i < j → L i j = 0) (hdiag : ∀ i, L i i ≠ 0) :
    IsUnit L.det := by
  have hbt : L.BlockTriangular OrderDual.toDual := by
    intro i j hij
    exact hlow i j (OrderDual.toDual_lt_toDual.mp hij)
  rw [Matrix.det_of_lowerTriangular L hbt]
  exact isUnit_iff_ne_zero.mpr (Finset.prod_ne_zero_iff.mpr fun i _ => hdiag i)

/-- Helper: one step of forward substitution clears row `i`: the partial
dot product through column `i` reproduces the right-hand side entry. -/
theorem fsub_step (F : ℕ → ℕ → ℚ) (G : ℕ → ℚ) (i : ℕ) (h : F i i ≠ 0) :
    ∑ j : Fin (i + 1), F i j * fsub F G j = G i := by
  rw [Fin.sum_univ_castSucc]
  have hz : F i i * fsub F G i = G i - ∑ j : Fin i, F i j * fsub F G j := by
    rw [fsub]
    rw [mul_comm, div_mul_cancel₀ _ h]
  simp only [Fin.coe_castSucc, Fin.val_last]
  rw [hz]
  ring

/-- Helper: the forward-substitution output satisfies the linear system
`L·z = b` when `L` is lower triangular with nonzero diagonal. -/
theorem mulVec_forwardSubVec {m : ℕ} (L : Matrix (Fin m) (Fin m) ℚ)
    (hlow : ∀ i j : Fin m, i < j → L i j = 0) (hdiag : ∀ i, L i i ≠ 0)
    (b : Fin m → ℚ) : L.mulVec (forwardSubVec L b) = b := by
  funext i
  have hFi : extMat L i.val i.val = L i i := by
    simp [extMat, i.isLt]
  have key := fsub_step (extMat L) (extVec b) i.val (by rw [hFi]; exact hdiag i)
  show ∑ j : Fin m, L i j * forwardSubVec L b j = b i
  calc ∑ j : Fin m, L i j * forwardSubVec L b j
      = ∑ j : Fin m, (fun a => extMat L i.val a * fsub (extMat L) (extVec b) a) j.val := by
        refine Finset.sum_congr rfl fun j _ => ?_
        simp [extMat, forwardSubVec, i.isLt, j.isLt]
    _ = ∑ a ∈ Finset.range m, extMat L i.val a * fsub (extMat L) (extVec b) a :=
        Fin.sum_univ_eq_sum_range
          (fun a => extMat L i.val a * fsub (extMat L) (extVec b) a) m
    _ = ∑ a ∈ Finset.range (i.val + 1), extMat L i.val a * fsub (extMat L) (extVec b) a := by
        refine (Finset.sum_subset (Finset.range_subset.mpr i.isLt) ?_).symm
        intro a ha hna
        simp only [Finset.mem_range] at ha hna
        have h1 : i.val < a := by omega
        have h2 : a < m := ha
        have hz : extMat L i.val a = 0 := by
          simp only [extMat]
          rw [dif_pos i.isLt, dif_pos h2]
          exact hlow i ⟨a, h2⟩ (by simpa [Fin.lt_def] using h1)
        rw [hz, zero_mul]
    _ = ∑ j : Fin (i.val + 1), extMat L i.val j.val * fsub (extMat L) (extVec b) j.val :=
        (Fin.sum_univ_eq_sum_range
          (fun a => extMat L i.val a * fsub (extMat L) (extVec b) a) (i.val + 1)).symm
    _ = extVec b i.val := key
    _ = b i := by simp [extVec, i.isLt]

/-- C4: under exact arithmetic, the solve step of the implementation
(`np.linalg.solve`, embedded as `linalgSolve`) applied to a Cholesky
factor — lower triangular with positive diagonal — equals the
forward-substitution reference algorithm on every right-hand side.  (The
source calls the general solver `np.linalg.solve`, not a dedicated
triangular routine; extensionally the two agree on every input.) -/
theorem C4_linalgSolve_eq_forwardSub {m k : ℕ} (L : Matrix (Fin m) (Fin m) ℚ)
    (hlow : ∀ i j : Fin m, i < j → L i j = 0) (hdiag : ∀ i, 0 < L i i)
    (B : Matrix (Fin m) (Fin k) ℚ) :
    linalgSolve L B = forwardSubMat L B := by
  have hdiag2 : ∀ i, L i i ≠ 0 := fun i => ne_of_gt (hdiag i)
  have hdet : IsUnit L.det := lowerTri_isUnit_det L hlow hdiag2
  have hmul : L * forwardSubMat L B = B := by
    ext i j
    have h := congrFun (mulVec_forwardSubVec L hlow hdiag2 (fun r => B r j)) i
    simpa [Matrix.mul_apply, Matrix.mulVec, Matrix.dotProduct, forwardSubMat] using h
  calc linalgSolve L B
      = L⁻¹ * B := by unfold linalgSolve; rw [matInv_eq]
    _ = L⁻¹ * (L * forwardSubMat L B) := by rw [hmul]
    _ = L⁻¹ * L * forwardSubMat L B := by rw [Matrix.mul_assoc]
    _ = forwardSubMat L B := by rw [Matrix.nonsing_inv_mul L hdet, Matrix.one_mul]

/-- Witness for C4 at the lower-triangular `2 × 2` factor
`L = [[1,0],[2,3]]` with right-hand side column `[[5],[7]]`. -/
theorem C4_linalgSolve_eq_forwardSub_witness :
    (∀ i j : Fin 2, i < j → (!![1, 0; 2, 3] : Matrix (Fin 2) (Fin 2) ℚ) i j = 0) ∧
    (∀ i : Fin 2, 0 < (!![1, 0; 2, 3] : Matrix (Fin 2) (Fin 2) ℚ) i i) ∧
    linalgSolve (!![1, 0; 2, 3] : Matrix (Fin 2) (Fin 2) ℚ) !![(5 : ℚ); 7] =
      forwardSubMat !![1, 0; 2, 3] !![(5 : ℚ); 7] :=
  ⟨by decide, by decide,
   C4_linalgSolve_eq_forwardSub _ (by decide) (by decide) _⟩

/-- C3: for every `UnboundedNormalizer` whose stored factor `L` has the
Cholesky properties (lower triangular, strictly positive diagonal — what
`np.linalg.cholesky` returns for a symmetric positive-definite covariance
`C = L·Lᵀ`), and for all `M × m` matrices `X` and `Z`,
`unnormalize(normalize(X)) = X` and `normalize(unnormalize(Z)) = Z`, where
`normalize` solves `L·Z = (X - mu)ᵀ` and `unnormalize(X) = X·Lᵀ + mu`. -/
theorem C3_unboundedNormalizer_roundtrip {m M : ℕ} (N : UnboundedNormalizer m)
    (hlow : ∀ i j : Fin m, i < j → N.L i j = 0) (hdiag : ∀ i, 0 < N.L i i)
    (X Z : Matrix (Fin M) (Fin m) ℚ) :
    N.unnormalize (N.normalize X) = X ∧ N.normalize (N.unnormalize Z) = Z := by
  have hdet : IsUnit N.L.det :=
    lowerTri_isUnit_det N.L hlow (fun i => ne_of_gt (hdiag i))
  have hsolve : ∀ {k : ℕ} (B : Matrix (Fin m) (Fin k) ℚ),
      linalgSolve N.L B = N.L⁻¹ * B := by
    intro k B
    unfold linalgSolve
    rw [matInv_eq]
  constructor
  · show (linalgSolve N.L (X - broadcastRow M N.mu).transpose).transpose *
      N.L.transpose + broadcastRow M N.mu = X
    rw [hsolve]
    calc (N.L⁻¹ * (X - broadcastRow M N.mu).transpose).transpose *
          N.L.transpose + broadcastRow M N.mu
        = (X - broadcastRow M N.mu) *
            ((N.L⁻¹).transpose * N.L.transpose) + broadcastRow M N.mu := by
          rw [Matrix.transpose_mul, Matrix.transpose_transpose, Matrix.mul_assoc]
      _ = (X - broadcastRow M N.mu) * (N.L * N.L⁻¹).transpose +
            broadcastRow M N.mu := by
          rw [Matrix.transpose_mul]
      _ = X - broadcastRow M N.mu + broadcastRow M N.mu := by
          rw [Matrix.mul_nonsing_inv _ hdet, Matrix.transpose_one, Matrix.mul_one]
      _ = X := sub_add_cancel X (broadcastRow M N.mu)
  · show (linalgSolve N.L ((Z * N.L.transpose + broadcastRow M N.mu) -
      broadcastRow M N.mu).transpose).transpose = Z
    rw [add_sub_cancel_right, hsolve, Matrix.transpose_mul,
      Matrix.transpose_transpose, Matrix.mul_assoc, ← Matrix.transpose_mul,
      Matrix.nonsing_inv_mul _ hdet, Matrix.transpose_one, Matrix.mul_one]

/-- Witness for C3 at `m = M = 1`, `mu = 3`, `L = (2)` (the Cholesky
factor of `C = (4)`), `X = (5)`, `Z = (9)`. -/
theorem C3_unboundedNormalizer_roundtrip_witness :
    (∀ i j : Fin 1, i < j →
      (⟨fun _ => 3, Matrix.of fun _ _ => 2⟩ : UnboundedNormalizer 1).L i j = 0) ∧
    (∀ i : Fin 1,
      0 < (⟨fun _ => 3, Matrix.of fun _ _ => 2⟩ : UnboundedNormalizer 1).L i i) ∧
    ((⟨fun _ => 3, Matrix.of fun _ _ => 2⟩ : UnboundedNormalizer 1).unnormalize
        ((⟨fun _ => 3, Matrix.of fun _ _ => 2⟩ : UnboundedNormalizer 1).normalize
          (Matrix.of fun (_ : Fin 1) (_ : Fin 1) => (5 : ℚ))) =
        (Matrix.of fun (_ : Fin 1) (_ : Fin 1) => (5 : ℚ)) ∧
      (⟨fun _ => 3, Matrix.of fun _ _ => 2⟩ : UnboundedNormalizer 1).normalize
        ((⟨fun _ => 3, Matrix.of fun _ _ => 2⟩ : UnboundedNormalizer 1).unnormalize
          (Matrix.of fun (_ : Fin 1) (_ : Fin 1) => (9 : ℚ))) =
        (Matrix.of fun (_ : Fin 1) (_ : Fin 1) => (9 : ℚ))) :=
  ⟨by decide, by decide,
   C3_unboundedNormalizer_roundtrip _ (by decide) (by decide) _ _⟩
